import Mathlib

/-!
# memory_latency.cpp: sweep driver and sequential latency measurer

A shallow embedding of `src/memory_latency.cpp`.

* `uint64_t` values are natural numbers; every operation that can wrap is
  written with an explicit `% 2 ^ 64`.
* A `long` is an integer; `toU64` is its conversion to `uint64_t`.
* The `float` variable `factor` is a finite binary32 value `num / 2 ^ k`
  (the value the variable holds after `std::stod` and the conversion to
  `float`); `roundToFloat` is round-to-nearest-even to 24 significant bits,
  so the product `curr_size * factor` of line 159 is computed in IEEE-754
  binary32 arithmetic: `curr_size` is converted to `float`, the product is
  rounded to `float`, and the cast truncates.
  Infinities and NaN are not values of the type `Float32`; with either of
  them the first conversion of line 159 is out of range.
* Undefined behaviour (modulo by zero, out-of-range read, write through a
  null pointer, out-of-range float-to-integer conversion) is `none`, or the
  outcome `undefined` of the sweep.
* The results of `malloc` are an input of the sweep, as the opening of
  `results.csv` is an input of `main`.
* Clock readings are inputs.  The two `double` averages are kept as an
  unevaluated quotient (numerator and divisor).
-/

set_option linter.constructorNameAsVariable false

namespace MemoryLatency

/-! ## Machine integers and the clock -/

/-- Conversion of a signed `long` to `uint64_t` (reduction modulo `2 ^ 64`). -/
def toU64 (x : Int) : Nat := (x % (2 ^ 64 : Int)).toNat

/-- The macro `GALOIS_POLYNOMIAL` (lines 11-12). -/
def GALOIS_POLYNOMIAL : Nat :=
  (1 <<< 63) ||| (1 <<< 62) ||| (1 <<< 60) ||| (1 <<< 59)

/-- The fields of `struct timespec`. -/
structure Timespec where
  tv_sec : Int
  tv_nsec : Int
  deriving DecidableEq

/-- Line 19: `uint64_t nanosectime(struct timespec t) { return t.tv_nsec; }`. -/
def nanosectime (t : Timespec) : Nat := toU64 t.tv_nsec

/-! ## The Galois step -/

/-- Lines 50-53 and 65-68:
`rnd = (rnd >> 1) ^ ((0 - (rnd & 1)) & GALOIS_POLYNOMIAL)` on `uint64_t`. -/
def galoisAdvance (rnd : Nat) : Nat :=
  (rnd >>> 1) ^^^ (((0 + 2 ^ 64 - (rnd &&& 1)) % 2 ^ 64) &&& GALOIS_POLYNOMIAL)

/-- The reference step in the words of the specification: shift right by one,
and apply the polynomial only when the shifted-out (low) bit is 1. -/
def referenceGaloisStep (x : Nat) : Nat :=
  if x % 2 = 0 then x >>> 1 else (x >>> 1) ^^^ GALOIS_POLYNOMIAL

/-! ## measure_sequential_latency -/

/-- The loop-carried state of one timed loop.  `rnd` is the program variable;
`iters` counts executed iterations and `reads` lists, in order, the indices at
which `arr` was read. -/
structure LoopState where
  rnd : Nat
  iters : Nat
  reads : List Nat
  deriving DecidableEq

/-- Body of the baseline loop (lines 48-53) for loop counter `i`. -/
def baselineBody (arr_size zero : Nat) (s : LoopState) (i : Nat) : Option LoopState :=
  if arr_size = 0 then none
  else
    let index := i % arr_size
    let rnd := s.rnd ^^^ (index &&& zero)
    some { rnd := galoisAdvance rnd, iters := s.iters + 1, reads := s.reads }

/-- Body of the access loop (lines 63-68) for loop counter `i`.  The array is
the list of its elements; a read outside it is undefined. -/
def accessBody (arr : List Nat) (arr_size zero : Nat) (s : LoopState) (i : Nat) :
    Option LoopState :=
  if arr_size = 0 then none
  else
    let index := i % arr_size
    match arr[index]? with
    | none => none
    | some v =>
      let rnd := s.rnd ^^^ (v &&& zero)
      some { rnd := galoisAdvance rnd, iters := s.iters + 1, reads := s.reads ++ [index] }

/-- The loop `for (i = 0; i < n; i++) body`. -/
def forLoop {σ : Type} (body : σ → Nat → Option σ) (n : Nat) (s : σ) : Option σ :=
  (List.range n).foldlM body s

/-- A `double` average kept as the unevaluated quotient `(double)num / den`. -/
structure Average where
  num : Nat
  den : Nat
  deriving DecidableEq

/-- The record `struct measurement`. -/
structure measurement where
  baseline : Average
  access_time : Average
  rnd : Nat
  deriving DecidableEq

/-- What one call of the measurer produced: the returned record and the final
states of its two loops. -/
structure SeqRun where
  result : measurement
  baselineEnd : LoopState
  accessEnd : LoopState
  deriving DecidableEq

/-- Lines 37-84.  `t0 .. t3` are the four clock readings. -/
def measure_sequential_latency (repeat_ : Nat) (arr : List Nat) (arr_size zero : Nat)
    (t0 t1 t2 t3 : Timespec) : Option SeqRun :=
  let repeat_ := if arr_size > repeat_ then arr_size else repeat_
  match forLoop (baselineBody arr_size zero) repeat_ ⟨12345, 0, []⟩ with
  | none => none
  | some b =>
    let rnd := (b.rnd &&& zero) ^^^ 12345
    match forLoop (accessBody arr arr_size zero) repeat_ ⟨rnd, 0, []⟩ with
    | none => none
    | some a =>
      some
        { result :=
            { baseline := ⟨(nanosectime t1 + 2 ^ 64 - nanosectime t0) % 2 ^ 64, repeat_⟩
              access_time := ⟨(nanosectime t3 + 2 ^ 64 - nanosectime t2) % 2 ^ 64, repeat_⟩
              rnd := a.rnd }
          baselineEnd := b
          accessEnd := a }

/-! ## binary32 arithmetic of the sweep -/

/-- A finite `float` value `num / 2 ^ k`. -/
structure Float32 where
  num : Int
  k : Nat
  deriving DecidableEq

/-- A sufficient condition for `num / 2 ^ k` to be a binary32 value: a 24-bit
significand and an exponent of at least `-149`. -/
def Float32.representable (f : Float32) : Prop :=
  f.num.natAbs < 2 ^ 24 ∧ f.k ≤ 149

instance (f : Float32) : Decidable f.representable := by
  unfold Float32.representable; infer_instance

/-- Number of low bits that do not fit a 24-bit significand: the least `s`
with `n / 2 ^ s < 2 ^ 24` (the first argument bounds the recursion). -/
def dropBits : Nat → Nat → Nat
  | 0, _ => 0
  | fuel + 1, n => if n < 2 ^ 24 then 0 else dropBits fuel (n / 2) + 1

/-- Rounding of a natural number to the nearest number with at most 24
significant bits, ties to the even significand (binary32 rounding). -/
def roundToFloat (n : Nat) : Nat :=
  let s := dropBits n n
  let q := n / 2 ^ s
  let r := n % 2 ^ s
  if 2 * r < 2 ^ s then q * 2 ^ s
  else if 2 * r = 2 ^ s then (if q % 2 = 0 then q * 2 ^ s else (q + 1) * 2 ^ s)
  else (q + 1) * 2 ^ s

/-- The number `num / 2 ^ k` is a finite binary32 value when `num` has at most 24
significant bits, lies below `2 ^ 128`, and the exponent `-k` is at least
`-149` (a sufficient condition that also covers large values). -/
def Float32.isBinary32 (f : Float32) : Prop :=
  roundToFloat f.num.natAbs = f.num.natAbs ∧ f.num.natAbs < 2 ^ 128 ∧ f.k ≤ 149

instance (f : Float32) : Decidable f.isBinary32 := by
  unfold Float32.isBinary32; infer_instance

/-- Line 159: `static_cast<uint64_t>(curr_size * factor)`.  `curr_size` is
converted to `float`, the product is rounded to `float`, and the conversion to
`uint64_t` truncates; it is undefined when the truncated value does not fit
(a product that overflows `float` is among these).  The significand rounding
is that of the normal range, where every product of `main` lies
(`curr_size >= 1` and `factor > 1`). -/
def scaleSize (factor : Float32) (curr_size : Nat) : Option Nat :=
  let x := roundToFloat curr_size
  let p := roundToFloat (x * factor.num.natAbs)
  let t := p / 2 ^ factor.k
  if factor.num < 0 then (if t = 0 then some 0 else none)
  else if t < 2 ^ 64 then some t else none

/-- One emitted row: `curr_size` and the element count handed to the measurers. -/
abbrev Row := Nat × Nat

/-- How the `while` loop of `main` ended. -/
inductive SweepResult
  | finished (rows : List Row)
  | undefined (rows : List Row)
  | unfinished (rows : List Row)
  deriving DecidableEq

/-- The rows emitted so far, whatever way the loop ended. -/
def SweepResult.rows : SweepResult → List Row
  | .finished rows => rows
  | .undefined rows => rows
  | .unfinished rows => rows

/-- Lines 131-160, run for at most `fuel` evaluations of the loop condition.
`elem_width` is `sizeof(array_element_t)`; `allocates i` tells whether the
`malloc` of the `i`-th iteration still to run returns a non-null pointer.
`finished`: the condition `curr_size <= max_size` became false.  `undefined`:
the measurers were handed an empty array (they compute `i % arr_size`), or
`malloc` (line 137, unchecked) returned null and line 139 wrote through it, or
the conversion of line 159 was out of range.  `unfinished`: the loop is still
running.  After a successful allocation lines 138-140 fill the `num_elements`
elements, the measurers return (they are handed a non-empty array of that
length) and the row is emitted. -/
def sweep (elem_width max_size : Nat) (factor : Float32) :
    Nat → (Nat → Bool) → Nat → List Row → SweepResult
  | 0, _, _, rows => .unfinished rows
  | fuel + 1, allocates, curr_size, rows =>
    if curr_size ≤ max_size then
      let num_elements := curr_size / elem_width
      if num_elements = 0 then .undefined rows
      else if allocates 0 = false then .undefined rows
      else
        let rows := rows ++ [(curr_size, num_elements)]
        match scaleSize factor curr_size with
        | none => .undefined rows
        | some next =>
          sweep elem_width max_size factor fuel (fun i => allocates (i + 1)) next rows
    else .finished rows

/-- The states of the `while` loop of `main`: `curr_size` starts at 100 and each
executed iteration replaces it by the value of line 159, when the conversion
has one.  An iteration whose allocation fails yields no state either, so
every state of a run is among these. -/
inductive SweepReaches (max_size : Nat) (factor : Float32) : Nat → Prop
  | start : SweepReaches max_size factor 100
  | next {c c2 : Nat} : SweepReaches max_size factor c → c ≤ max_size →
      scaleSize factor c = some c2 → SweepReaches max_size factor c2

/-! ## main -/

/-- Lines 111-112: the value `zero` computed from the clock reading `t_dummy`. -/
def mainZero (t_dummy : Timespec) : Nat :=
  if nanosectime t_dummy > 1000000000 then 0 else nanosectime t_dummy

/-- Line 117, negated: the condition under which `main` goes on.  `factor <= 1`
compares the `float` with `1`. -/
def argumentsAccepted (max_size : Nat) (factor : Float32) (repeat_ : Nat) : Bool :=
  !(decide (max_size < 100) || decide (factor.num ≤ 2 ^ factor.k) || decide (repeat_ ≤ 0))

/-- The exits of `main`. -/
inductive MainResult
  | usage
  | invalidArguments
  | fileOpenFailed
  | swept (r : SweepResult)
  deriving DecidableEq

/-- Lines 102-164.  `arg1` and `arg3` are the values returned by `std::stol`,
`factor` is the `float` variable, `fileOpens` tells whether `results.csv`
could be opened, `allocates i` whether the `malloc` of iteration `i` of the
sweep succeeds.  `usage`, `invalidArguments` and `fileOpenFailed` are the
three `return -1`; `swept` is reached only after the file was opened.  The
value `zero` of lines 111-112 (`mainZero`) is only handed to the measurers and
does not influence the sizes. -/
def main (fuel argc : Nat) (arg1 : Int) (factor : Float32) (arg3 : Int) (fileOpens : Bool)
    (allocates : Nat → Bool) (elem_width : Nat) : MainResult :=
  if argc ≠ 4 then .usage
  else
    let max_size := toU64 arg1
    let repeat_ := toU64 arg3
    if !argumentsAccepted max_size factor repeat_ then .invalidArguments
    else if !fileOpens then .fileOpenFailed
    else .swept (sweep elem_width max_size factor fuel allocates 100 [])


/-! ## Facts about the Galois step -/

theorem galoisPolynomial_eq : GALOIS_POLYNOMIAL = 2 ^ 63 + 2 ^ 62 + 2 ^ 60 + 2 ^ 59 := by
  decide

theorem galoisAdvance_eq_reference (x : Nat) : galoisAdvance x = referenceGaloisStep x := by
  unfold galoisAdvance referenceGaloisStep
  rw [Nat.and_one_is_mod]
  rcases Nat.mod_two_eq_zero_or_one x with h | h
  · simp [h]
  · have hmask : (0 + 2 ^ 64 - 1) % 2 ^ 64 &&& GALOIS_POLYNOMIAL = GALOIS_POLYNOMIAL := by
      decide
    simp only [h, hmask]
    simp

theorem galoisAdvance_even {x : Nat} (h : x % 2 = 0) : galoisAdvance x = x / 2 := by
  rw [galoisAdvance_eq_reference, referenceGaloisStep, if_pos h, Nat.shiftRight_eq_div_pow]

theorem galoisAdvance_odd {x : Nat} (h : x % 2 = 1) :
    galoisAdvance x = (x / 2) ^^^ GALOIS_POLYNOMIAL := by
  rw [galoisAdvance_eq_reference, referenceGaloisStep, if_neg (by omega),
    Nat.shiftRight_eq_div_pow]

theorem galoisAdvance_odd_ge {x : Nat} (hx : x < 2 ^ 64) (h : x % 2 = 1) :
    2 ^ 63 ≤ galoisAdvance x := by
  rw [galoisAdvance_odd h]
  apply Nat.testBit_implies_ge
  rw [Nat.testBit_xor, Nat.testBit_lt_two_pow (by omega : x / 2 < 2 ^ 63)]
  decide

theorem galoisAdvance_lt {x : Nat} (hx : x < 2 ^ 64) : galoisAdvance x < 2 ^ 64 := by
  rcases Nat.mod_two_eq_zero_or_one x with h | h
  · rw [galoisAdvance_even h]; omega
  · rw [galoisAdvance_odd h]
    exact Nat.xor_lt_two_pow (by omega) (by decide)

theorem galoisAdvance_injective {x y : Nat} (hx : x < 2 ^ 64) (hy : y < 2 ^ 64)
    (h : galoisAdvance x = galoisAdvance y) : x = y := by
  rcases Nat.mod_two_eq_zero_or_one x with hx2 | hx2 <;>
    rcases Nat.mod_two_eq_zero_or_one y with hy2 | hy2
  · rw [galoisAdvance_even hx2, galoisAdvance_even hy2] at h
    omega
  · have hge := galoisAdvance_odd_ge hy hy2
    rw [← h, galoisAdvance_even hx2] at hge
    omega
  · have hge := galoisAdvance_odd_ge hx hx2
    rw [h, galoisAdvance_even hy2] at hge
    omega
  · rw [galoisAdvance_odd hx2, galoisAdvance_odd hy2] at h
    have h2 : x / 2 = y / 2 := by
      have := congrArg (fun z => z ^^^ GALOIS_POLYNOMIAL) h
      simpa [Nat.xor_cancel_right] using this
    omega

theorem galoisAdvance_zero : galoisAdvance 0 = 0 := by decide

theorem galoisAdvance_ne_zero {x : Nat} (hx : x < 2 ^ 64) (h0 : x ≠ 0) :
    galoisAdvance x ≠ 0 := by
  intro h
  exact h0 (galoisAdvance_injective hx (by decide) (h.trans galoisAdvance_zero.symm))

theorem galoisAdvance_iterate_inv (n : Nat) {x : Nat} (hx : x < 2 ^ 64) (h0 : x ≠ 0) :
    galoisAdvance^[n] x < 2 ^ 64 ∧ galoisAdvance^[n] x ≠ 0 := by
  induction n with
  | zero => exact ⟨hx, h0⟩
  | succ n ih =>
    rw [Function.iterate_succ_apply']
    exact ⟨galoisAdvance_lt ih.1, galoisAdvance_ne_zero ih.1 ih.2⟩

theorem iterate_galois_eq_reference (n x : Nat) :
    galoisAdvance^[n] x = referenceGaloisStep^[n] x := by
  have : galoisAdvance = referenceGaloisStep := funext galoisAdvance_eq_reference
  rw [this]

/-! ## The two timed loops -/

theorem forLoop_succ {σ : Type} (body : σ → Nat → Option σ) (n : Nat) (s : σ) :
    forLoop body (n + 1) s = (forLoop body n s).bind (fun s2 => body s2 n) := by
  unfold forLoop
  rw [List.range_succ, List.foldlM_append]
  cases h : List.foldlM body s (List.range n) <;> simp [List.foldlM]

theorem forLoop_zero {σ : Type} (body : σ → Nat → Option σ) (s : σ) :
    forLoop body 0 s = some s := by
  simp [forLoop, List.foldlM]

/-- The baseline loop returns whenever `arr_size` is positive; it executes `n`
iterations, reads nothing, and for `zero = 0` applies the Galois step `n` times. -/
theorem baselineLoop_spec (arr_size zero : Nat) (hsz : arr_size ≠ 0) (n : Nat) (s : LoopState) :
    ∃ s2, forLoop (baselineBody arr_size zero) n s = some s2 ∧
      s2.iters = s.iters + n ∧ s2.reads = s.reads ∧
      (zero = 0 → s2.rnd = galoisAdvance^[n] s.rnd) := by
  induction n with
  | zero => exact ⟨s, forLoop_zero _ _, rfl, rfl, fun _ => rfl⟩
  | succ n ih =>
    obtain ⟨s1, h1, hi, hr, hz⟩ := ih
    refine ⟨⟨galoisAdvance (s1.rnd ^^^ (n % arr_size &&& zero)), s1.iters + 1, s1.reads⟩,
      ?_, ?_, ?_, ?_⟩
    · rw [forLoop_succ, h1]
      simp only [Option.some_bind, baselineBody, if_neg hsz]
    · simp only [hi]; omega
    · simp only [hr]
    · intro h0
      subst h0
      rw [Function.iterate_succ_apply', ← hz rfl]
      simp

/-- The access loop returns whenever the array has `arr_size > 0` elements; it
executes `n` iterations, reads at the indices `i % arr_size` for `i < n`, and
for `zero = 0` applies the Galois step `n` times. -/
theorem accessLoop_spec (arr : List Nat) (arr_size zero : Nat) (hlen : arr.length = arr_size)
    (hsz : arr_size ≠ 0) (n : Nat) (s : LoopState) :
    ∃ s2, forLoop (accessBody arr arr_size zero) n s = some s2 ∧
      s2.iters = s.iters + n ∧
      s2.reads = s.reads ++ (List.range n).map (fun i => i % arr_size) ∧
      (zero = 0 → s2.rnd = galoisAdvance^[n] s.rnd) := by
  induction n with
  | zero => exact ⟨s, forLoop_zero _ _, rfl, by simp, fun _ => rfl⟩
  | succ n ih =>
    obtain ⟨s1, h1, hi, hr, hz⟩ := ih
    have hlt : n % arr_size < arr.length := by
      rw [hlen]; exact Nat.mod_lt _ (Nat.pos_of_ne_zero hsz)
    refine ⟨⟨galoisAdvance (s1.rnd ^^^ (arr[n % arr_size] &&& zero)), s1.iters + 1,
      s1.reads ++ [n % arr_size]⟩, ?_, ?_, ?_, ?_⟩
    · rw [forLoop_succ, h1]
      simp only [Option.some_bind, accessBody, if_neg hsz, List.getElem?_eq_getElem hlt]
    · simp only [hi]; omega
    · simp only [hr, List.range_succ, List.map_append, List.map_cons, List.map_nil,
        List.append_assoc]
    · intro h0
      subst h0
      rw [Function.iterate_succ_apply', ← hz rfl]
      simp

/-- With an empty array and at least one iteration to run, the measurer
computes `i % 0`. -/
theorem measure_sequential_latency_empty (repeat_ zero : Nat) (arr : List Nat)
    (t0 t1 t2 t3 : Timespec) (h : 0 < repeat_) :
    measure_sequential_latency repeat_ arr 0 zero t0 t1 t2 t3 = none := by
  obtain ⟨m, rfl⟩ : ∃ m, repeat_ = m + 1 := ⟨repeat_ - 1, by omega⟩
  unfold measure_sequential_latency
  have hb : forLoop (baselineBody 0 zero) (m + 1) ⟨12345, 0, []⟩ = none := by
    rw [forLoop_succ]
    cases forLoop (baselineBody 0 zero) m ⟨12345, 0, []⟩ <;> simp [baselineBody]
  simp [hb]

/-- Full description of a call of the measurer on an array of `arr_size > 0`
elements. -/
theorem measure_sequential_latency_spec (repeat_ : Nat) (arr : List Nat) (arr_size zero : Nat)
    (t0 t1 t2 t3 : Timespec) (hlen : arr.length = arr_size) (hsz : 1 ≤ arr_size) :
    ∃ r, measure_sequential_latency repeat_ arr arr_size zero t0 t1 t2 t3 = some r ∧
      r.baselineEnd.iters = max repeat_ arr_size ∧
      r.accessEnd.iters = max repeat_ arr_size ∧
      r.result.baseline.den = max repeat_ arr_size ∧
      r.result.access_time.den = max repeat_ arr_size ∧
      r.baselineEnd.reads = [] ∧
      r.accessEnd.reads = (List.range (max repeat_ arr_size)).map (fun i => i % arr_size) ∧
      r.result.rnd = r.accessEnd.rnd ∧
      (zero = 0 → r.baselineEnd.rnd = galoisAdvance^[max repeat_ arr_size] 12345 ∧
        r.accessEnd.rnd = galoisAdvance^[max repeat_ arr_size] 12345) := by
  have hne : arr_size ≠ 0 := by omega
  have hN : (if arr_size > repeat_ then arr_size else repeat_) = max repeat_ arr_size := by
    split <;> omega
  obtain ⟨b, hb, hbi, hbr, hbz⟩ :=
    baselineLoop_spec arr_size zero hne (max repeat_ arr_size) ⟨12345, 0, []⟩
  obtain ⟨a, ha, hai, har, haz⟩ :=
    accessLoop_spec arr arr_size zero hlen hne (max repeat_ arr_size)
      ⟨(b.rnd &&& zero) ^^^ 12345, 0, []⟩
  refine ⟨⟨⟨⟨(nanosectime t1 + 2 ^ 64 - nanosectime t0) % 2 ^ 64, max repeat_ arr_size⟩,
      ⟨(nanosectime t3 + 2 ^ 64 - nanosectime t2) % 2 ^ 64, max repeat_ arr_size⟩, a.rnd⟩, b, a⟩,
    ?_, ?_, ?_, rfl, rfl, ?_, ?_, rfl, ?_⟩
  · unfold measure_sequential_latency
    simp only [hN, hb, ha]
  · simpa using hbi
  · simpa using hai
  · simpa using hbr
  · simpa using har
  · intro h0
    refine ⟨hbz h0, ?_⟩
    have := haz h0
    subst h0
    simpa using this

/-! ## binary32 rounding -/

theorem dropBits_spec (fuel n : Nat) (h : n ≤ fuel) :
    n / 2 ^ dropBits fuel n < 2 ^ 24 ∧
      (dropBits fuel n ≠ 0 → 2 ^ 23 ≤ n / 2 ^ dropBits fuel n) := by
  induction fuel generalizing n with
  | zero =>
    obtain rfl : n = 0 := by omega
    simp [dropBits]
  | succ fuel ih =>
    unfold dropBits
    by_cases hn : n < 2 ^ 24
    · simp only [if_pos hn, pow_zero, Nat.div_one]
      exact ⟨hn, fun h0 => absurd rfl h0⟩
    · simp only [if_neg hn]
      have hle : n / 2 ≤ fuel := by omega
      obtain ⟨h1, h2⟩ := ih (n / 2) hle
      have hdiv : n / 2 ^ (dropBits fuel (n / 2) + 1) = n / 2 / 2 ^ dropBits fuel (n / 2) := by
        rw [Nat.div_div_eq_div_mul, pow_succ, Nat.mul_comm]
      rw [hdiv]
      refine ⟨h1, fun _ => ?_⟩
      by_cases hs : dropBits fuel (n / 2) = 0
      · rw [hs]; simp; omega
      · exact h2 hs

theorem roundToFloat_ge_floor (n : Nat) :
    n / 2 ^ dropBits n n * 2 ^ dropBits n n ≤ roundToFloat n := by
  unfold roundToFloat
  have hmono : n / 2 ^ dropBits n n * 2 ^ dropBits n n ≤
      (n / 2 ^ dropBits n n + 1) * 2 ^ dropBits n n :=
    Nat.mul_le_mul_right _ (Nat.le_succ _)
  simp only
  split
  · exact le_rfl
  · split
    · split
      · exact le_rfl
      · exact hmono
    · exact hmono

/-- A number with at most 24 significant bits is a fixed point of the rounding. -/
theorem roundToFloat_of_repr (a t : Nat) (ha : a < 2 ^ 24) :
    roundToFloat (a * 2 ^ t) = a * 2 ^ t := by
  obtain ⟨h1, h2⟩ := dropBits_spec (a * 2 ^ t) (a * 2 ^ t) le_rfl
  have hst : dropBits (a * 2 ^ t) (a * 2 ^ t) ≤ t := by
    by_contra hlt
    push_neg at hlt
    have hs0 : dropBits (a * 2 ^ t) (a * 2 ^ t) ≠ 0 := by omega
    have hge := h2 hs0
    obtain ⟨d, hd⟩ : ∃ d, dropBits (a * 2 ^ t) (a * 2 ^ t) = t + (d + 1) :=
      ⟨dropBits (a * 2 ^ t) (a * 2 ^ t) - t - 1, by omega⟩
    rw [hd, pow_add, ← Nat.div_div_eq_div_mul,
      Nat.mul_div_cancel _ (Nat.pos_pow_of_pos t (by norm_num))] at hge
    have : a / 2 ^ (d + 1) ≤ a / 2 := by
      rw [pow_succ, Nat.mul_comm, ← Nat.div_div_eq_div_mul]
      exact Nat.div_le_self _ _
    omega
  have hdvd : 2 ^ dropBits (a * 2 ^ t) (a * 2 ^ t) ∣ a * 2 ^ t :=
    Dvd.dvd.mul_left (pow_dvd_pow 2 hst) a
  unfold roundToFloat
  have hr : a * 2 ^ t % 2 ^ dropBits (a * 2 ^ t) (a * 2 ^ t) = 0 := Nat.mod_eq_zero_of_dvd hdvd
  have hpos : 0 < 2 ^ dropBits (a * 2 ^ t) (a * 2 ^ t) := Nat.pos_pow_of_pos _ (by norm_num)
  simp only [hr, Nat.mul_zero, hpos, if_true]
  exact Nat.div_mul_cancel hdvd

theorem roundToFloat_of_lt {n : Nat} (h : n < 2 ^ 24) : roundToFloat n = n := by
  simpa using roundToFloat_of_repr n 0 h

/-- Rounding never goes below a representable number that the argument reaches. -/
theorem le_roundToFloat_of_repr (a t n : Nat) (ha : a < 2 ^ 24) (h : a * 2 ^ t ≤ n) :
    a * 2 ^ t ≤ roundToFloat n := by
  refine le_trans ?_ (roundToFloat_ge_floor n)
  obtain ⟨h1, h2⟩ := dropBits_spec n n le_rfl
  have hpos : 0 < 2 ^ dropBits n n := Nat.pos_pow_of_pos _ (by norm_num)
  by_cases hts : dropBits n n ≤ t
  · obtain ⟨d, hd⟩ : ∃ d, t = dropBits n n + d := ⟨t - dropBits n n, by omega⟩
    have hq : a * 2 ^ d ≤ n / 2 ^ dropBits n n := by
      rw [Nat.le_div_iff_mul_le hpos]
      calc a * 2 ^ d * 2 ^ dropBits n n = a * 2 ^ t := by rw [hd, pow_add]; ring
        _ ≤ n := h
    calc a * 2 ^ t = a * 2 ^ d * 2 ^ dropBits n n := by rw [hd, pow_add]; ring
      _ ≤ n / 2 ^ dropBits n n * 2 ^ dropBits n n := Nat.mul_le_mul_right _ hq
  · push_neg at hts
    have hs0 : dropBits n n ≠ 0 := by omega
    have hge := h2 hs0
    obtain ⟨d, hd⟩ : ∃ d, dropBits n n = t + (d + 1) := ⟨dropBits n n - t - 1, by omega⟩
    calc a * 2 ^ t ≤ 2 ^ 24 * 2 ^ t := Nat.mul_le_mul_right _ (le_of_lt ha)
      _ ≤ 2 ^ 23 * 2 ^ dropBits n n := by
        have h2d : 2 ≤ 2 ^ (d + 1) := by
          have : 0 < 2 ^ d := Nat.pos_pow_of_pos _ (by norm_num)
          rw [pow_succ]; omega
        calc 2 ^ 24 * 2 ^ t = 2 ^ 23 * (2 ^ t * 2) := by ring
          _ ≤ 2 ^ 23 * (2 ^ t * 2 ^ (d + 1)) :=
            Nat.mul_le_mul_left _ (Nat.mul_le_mul_left _ h2d)
          _ = 2 ^ 23 * 2 ^ dropBits n n := by rw [hd]; ring
      _ ≤ n / 2 ^ dropBits n n * 2 ^ dropBits n n := Nat.mul_le_mul_right _ hge

/-! ## The transition of the sweep -/

/-- With factor 2 the transition doubles every size of the form `100 * 2 ^ j`. -/
theorem scaleSize_two (j : Nat) (h : 100 * 2 ^ (j + 1) < 2 ^ 64) :
    scaleSize ⟨2, 0⟩ (100 * 2 ^ j) = some (100 * 2 ^ (j + 1)) := by
  unfold scaleSize
  have e1 : roundToFloat (100 * 2 ^ j) = 100 * 2 ^ j := roundToFloat_of_repr 100 j (by norm_num)
  have e2 : 100 * 2 ^ j * 2 = 100 * 2 ^ (j + 1) := by rw [pow_succ]; ring
  have e3 : roundToFloat (100 * 2 ^ (j + 1)) = 100 * 2 ^ (j + 1) :=
    roundToFloat_of_repr 100 (j + 1) (by norm_num)
  have e0 : (2 : Int).natAbs = 2 := rfl
  simp only [e1, e0, e2, e3, pow_zero, Nat.div_one]
  rw [if_neg (by decide), if_pos h]

/-- A factor above 1 never takes a size of at least 100 below 100. -/
theorem scaleSize_ge_hundred (factor : Float32) (c c2 : Nat) (hf : (2 : Int) ^ factor.k < factor.num)
    (hc : 100 ≤ c) (h : scaleSize factor c = some c2) : 100 ≤ c2 := by
  have hpos : (0 : Int) < 2 ^ factor.k := by positivity
  have hnum : ¬ factor.num < 0 := by omega
  have habs : 2 ^ factor.k ≤ factor.num.natAbs := by
    have h1 : ((2 ^ factor.k : Nat) : Int) ≤ (factor.num.natAbs : Int) := by
      rw [Int.natAbs_of_nonneg (by omega)]
      push_cast
      omega
    exact_mod_cast h1
  have hx : 25 * 2 ^ 2 ≤ roundToFloat c := le_roundToFloat_of_repr 25 2 c (by norm_num) (by omega)
  have hp : 25 * 2 ^ (factor.k + 2) ≤ roundToFloat (roundToFloat c * factor.num.natAbs) := by
    apply le_roundToFloat_of_repr 25 _ _ (by norm_num)
    calc 25 * 2 ^ (factor.k + 2) = 25 * 2 ^ 2 * 2 ^ factor.k := by rw [pow_add]; ring
      _ ≤ roundToFloat c * factor.num.natAbs := Nat.mul_le_mul hx habs
  have ht : 100 ≤ roundToFloat (roundToFloat c * factor.num.natAbs) / 2 ^ factor.k := by
    rw [Nat.le_div_iff_mul_le (Nat.pos_pow_of_pos _ (by norm_num))]
    calc 100 * 2 ^ factor.k = 25 * 2 ^ (factor.k + 2) := by rw [pow_add]; ring
      _ ≤ _ := hp
  unfold scaleSize at h
  simp only [if_neg hnum] at h
  split at h
  · cases h; exact ht
  · cases h

/-! ## The sweep -/

theorem toU64_natCast {n : Nat} (h : n < 2 ^ 64) : toU64 (n : Int) = n := by
  unfold toU64
  have h2 : ((n : Int) % (2 ^ 64 : Int)) = (n : Int) := by
    apply Int.emod_eq_of_lt (by omega)
    exact_mod_cast h
  rw [h2]
  simp

/-- With factor 2 and `100 * 2 ^ k <= max_size < 100 * 2 ^ (k + 1)`, the loop
started at `100 * 2 ^ j` emits the remaining sizes and ends, provided the
allocations of the remaining iterations succeed. -/
theorem sweep_two (w max_size k : Nat) (hw1 : 1 ≤ w) (hw : w ≤ 100)
    (hk : 100 * 2 ^ k ≤ max_size) (hk2 : max_size < 100 * 2 ^ (k + 1))
    (hov : 100 * 2 ^ (k + 1) < 2 ^ 64) :
    ∀ (d j fuel : Nat) (allocates : Nat → Bool) (rows : List Row), j + d = k + 1 →
      d + 1 ≤ fuel → (∀ i, i < d → allocates i = true) →
      sweep w max_size ⟨2, 0⟩ fuel allocates (100 * 2 ^ j) rows =
        .finished (rows ++ (List.range d).map
          (fun i => (100 * 2 ^ (j + i), 100 * 2 ^ (j + i) / w))) := by
  intro d
  induction d with
  | zero =>
    intro j fuel allocates rows hj hfuel _
    obtain ⟨f, rfl⟩ : ∃ f, fuel = f + 1 := ⟨fuel - 1, by omega⟩
    obtain rfl : j = k + 1 := by omega
    unfold sweep
    rw [if_neg (by omega)]
    simp
  | succ d ih =>
    intro j fuel allocates rows hj hfuel halloc
    obtain ⟨f, rfl⟩ : ∃ f, fuel = f + 1 := ⟨fuel - 1, by omega⟩
    have ha0 : ¬ allocates 0 = false := by simp [halloc 0 (by omega)]
    have hjk : j ≤ k := by omega
    have hle : 100 * 2 ^ j ≤ 100 * 2 ^ k :=
      Nat.mul_le_mul_left _ (Nat.pow_le_pow_right (by norm_num) hjk)
    have hle2 : 100 * 2 ^ (j + 1) ≤ 100 * 2 ^ (k + 1) :=
      Nat.mul_le_mul_left _ (Nat.pow_le_pow_right (by norm_num) (by omega))
    have h100 : 100 ≤ 100 * 2 ^ j := Nat.le_mul_of_pos_right _ (Nat.pos_pow_of_pos _ (by norm_num))
    have hne : 100 * 2 ^ j / w ≠ 0 :=
      Nat.ne_of_gt (Nat.div_pos (le_trans hw h100) (by omega))
    unfold sweep
    rw [if_pos (le_trans hle hk)]
    simp only [if_neg hne, if_neg ha0, scaleSize_two j (lt_of_le_of_lt hle2 hov)]
    rw [ih (j + 1) f _ _ (by omega) (by omega) (fun i hi => halloc (i + 1) (by omega))]
    simp only [List.range_succ_eq_map, List.map_cons, List.map_map, Nat.add_zero,
      List.append_assoc, List.singleton_append]
    congr 3
    apply List.map_congr_left
    intro i _
    simp only [Function.comp, Nat.succ_eq_add_one]
    rw [show j + 1 + i = j + (i + 1) by omega]

/-- The loop with `max_size = 100` and factor `129 / 128`, every allocation
succeeding: the size stays 100. -/
theorem sweep_stuck (fuel : Nat) (rows : List Row) :
    sweep 8 100 ⟨129, 7⟩ fuel (fun _ => true) 100 rows =
      .unfinished (rows ++ List.replicate fuel (100, 12)) := by
  induction fuel generalizing rows with
  | zero => simp [sweep]
  | succ fuel ih =>
    unfold sweep
    have hs : scaleSize ⟨129, 7⟩ 100 = some 100 := by decide
    simp only [le_refl, if_true, hs]
    rw [if_neg (by decide), if_neg (by decide), ih]
    simp [List.replicate_succ]

/-- Every state of the loop is at least 100 when the factor exceeds 1. -/
theorem sweepReaches_ge_hundred (max_size : Nat) (factor : Float32)
    (hf : (2 : Int) ^ factor.k < factor.num) {c : Nat} (h : SweepReaches max_size factor c) :
    100 ≤ c := by
  induction h with
  | start => exact le_rfl
  | next _ _ hstep ih => exact scaleSize_ge_hundred factor _ _ hf ih hstep

/-- Every row emitted by the loop is a state of the loop, paired with its
element count. -/
theorem sweep_rows_reached (w max_size : Nat) (factor : Float32) (fuel : Nat) :
    ∀ (allocates : Nat → Bool) (c : Nat) (rows : List Row), SweepReaches max_size factor c →
      (∀ r ∈ rows, SweepReaches max_size factor r.1 ∧ r.2 = r.1 / w) →
      ∀ r ∈ (sweep w max_size factor fuel allocates c rows).rows,
        SweepReaches max_size factor r.1 ∧ r.2 = r.1 / w := by
  induction fuel with
  | zero => intro allocates c rows _ hrows; simpa [sweep, SweepResult.rows] using hrows
  | succ fuel ih =>
    intro allocates c rows hc hrows
    have hrows2 : ∀ r ∈ rows ++ [(c, c / w)], SweepReaches max_size factor r.1 ∧ r.2 = r.1 / w := by
      intro r hr
      rcases List.mem_append.1 hr with h | h
      · exact hrows r h
      · obtain rfl : r = (c, c / w) := by simpa using h
        exact ⟨hc, rfl⟩
    unfold sweep
    by_cases hle : c ≤ max_size
    · rw [if_pos hle]
      by_cases h0 : c / w = 0
      · simpa [h0, SweepResult.rows] using hrows
      · simp only [if_neg h0]
        by_cases ha : allocates 0 = false
        · simpa [ha, SweepResult.rows] using hrows
        · simp only [if_neg ha]
          cases hs : scaleSize factor c with
          | none => simpa [SweepResult.rows] using hrows2
          | some c2 => exact ih _ c2 _ (SweepReaches.next hc hle hs) hrows2
    · rw [if_neg hle]
      simpa [SweepResult.rows] using hrows

theorem argumentsAccepted_iff (max_size : Nat) (factor : Float32) (repeat_ : Nat) :
    argumentsAccepted max_size factor repeat_ = true ↔
      100 ≤ max_size ∧ (2 : Int) ^ factor.k < factor.num ∧ 0 < repeat_ := by
  unfold argumentsAccepted
  simp only [Bool.not_eq_true', Bool.or_eq_false_iff, decide_eq_false_iff_not, not_lt, not_le,
    and_assoc]

/-! ## Validation and the value `zero` -/

/-- What line 117 decides, in terms of the converted arguments. -/
theorem main_invalidArguments_iff (fuel : Nat) (arg1 : Int) (factor : Float32) (arg3 : Int)
    (fileOpens : Bool) (allocates : Nat → Bool) (w : Nat) :
    main fuel 4 arg1 factor arg3 fileOpens allocates w = .invalidArguments ↔
      (toU64 arg1 < 100 ∨ factor.num ≤ 2 ^ factor.k ∨ toU64 arg3 = 0) := by
  unfold main
  simp only [ne_eq, not_true_eq_false, if_false]
  by_cases hacc : argumentsAccepted (toU64 arg1) factor (toU64 arg3) = true
  · have h := (argumentsAccepted_iff _ _ _).1 hacc
    simp only [hacc, Bool.not_true, Bool.false_eq_true, if_false]
    constructor
    · intro hm
      cases fileOpens <;> simp at hm
    · intro hm
      omega
  · have h : ¬ (100 ≤ toU64 arg1 ∧ (2 : Int) ^ factor.k < factor.num ∧ 0 < toU64 arg3) :=
      fun hh => hacc ((argumentsAccepted_iff _ _ _).2 hh)
    have hacc2 : argumentsAccepted (toU64 arg1) factor (toU64 arg3) = false := by
      simpa using hacc
    simp only [hacc2, Bool.not_false, if_true, true_iff]
    by_contra hcon
    push_neg at hcon
    exact h ⟨by omega, by omega, by omega⟩

/-- A failed allocation ends the run: with `max_size = 800`, factor 2 and the
third `malloc` returning null, only the rows of sizes 100 and 200 are emitted. -/
theorem main_failed_allocation :
    main 5 4 800 ⟨2, 0⟩ 1000 true (fun i => decide (i < 2)) 8 =
      .swept (.undefined [(100, 12), (200, 25)]) := by
  decide

/-- For a reading with `tv_nsec` in `[0, 1000000000]` the value `zero` is
`tv_nsec`. -/
theorem mainZero_eq_of_range (t : Timespec) (h0 : 0 ≤ t.tv_nsec) (h1 : t.tv_nsec ≤ 1000000000) :
    (mainZero t : Int) = t.tv_nsec := by
  have hu : ((toU64 t.tv_nsec : Nat) : Int) = t.tv_nsec := by
    unfold toU64
    rw [Int.emod_eq_of_lt h0 (by omega), Int.toNat_of_nonneg h0]
  unfold mainZero nanosectime
  have hle : ¬ toU64 t.tv_nsec > 1000000000 := by omega
  rw [if_neg hle, hu]

/-- For every `max_size >= 100` there is a largest `k` with `100 * 2 ^ k <= max_size`. -/
theorem exists_last_power (max_size : Nat) (h : 100 ≤ max_size) :
    ∃ k, 100 * 2 ^ k ≤ max_size ∧ max_size < 100 * 2 ^ (k + 1) := by
  have hpos : max_size / 100 ≠ 0 := Nat.ne_of_gt (Nat.div_pos h (by norm_num))
  refine ⟨Nat.log 2 (max_size / 100), ?_, ?_⟩
  · have := Nat.pow_log_le_self 2 hpos
    omega
  · have := Nat.lt_pow_succ_log_self (by norm_num : 1 < 2) (max_size / 100)
    omega

/-! ## The claims -/

/-- C1 (the code departs from it): the validation of `main` is applied to the
`uint64_t` conversions of the parsed integers, so a negative `max_size` or a
negative `repeat` is not rejected.  With `max_size = -1, factor = 2,
repeat = 10` (8-byte elements, every allocation succeeding) `main` passes
line 117, tries to open `results.csv` and starts the sweep; so it does with
`max_size = 800, repeat = -5`, which then runs the whole sweep. -/
theorem main_accepts_negative_arguments :
    main 3 4 (-1) ⟨2, 0⟩ 10 true (fun _ => true) 8 =
      .swept (.unfinished [(100, 12), (200, 25), (400, 50)]) ∧
    main 3 4 (-1) ⟨2, 0⟩ 10 false (fun _ => true) 8 = .fileOpenFailed ∧
    main 5 4 800 ⟨2, 0⟩ (-5) true (fun _ => true) 8 =
      .swept (.finished [(100, 12), (200, 25), (400, 50), (800, 100)]) ∧
    toU64 (-1) = 2 ^ 64 - 1 ∧ toU64 (-5) = 2 ^ 64 - 5 := by
  decide

/-- C2: with factor 2 and `100 * 2 ^ k <= max_size < 100 * 2 ^ (k + 1)`, no size
reaching `2 ^ 64`, `results.csv` opening and the `k + 1` allocations of the
sweep succeeding, `main` ends its sweep (any `fuel >= k + 2` suffices) after
emitting exactly the rows of sizes `100 * 2 ^ j`, `j = 0 .. k`, in increasing
order, each with its element count. -/
theorem main_sweep_sizes_factor_two (max_size k fuel repeat_ w : Nat) (allocates : Nat → Bool)
    (hk : 100 * 2 ^ k ≤ max_size) (hk2 : max_size < 100 * 2 ^ (k + 1))
    (hov : 100 * 2 ^ (k + 1) < 2 ^ 64) (hrep : 0 < repeat_) (hrep2 : repeat_ < 2 ^ 63)
    (hw1 : 1 ≤ w) (hw : w ≤ 100) (hfuel : k + 2 ≤ fuel)
    (halloc : ∀ i, i ≤ k → allocates i = true) :
    main fuel 4 (max_size : Int) ⟨2, 0⟩ (repeat_ : Int) true allocates w =
      .swept (.finished ((List.range (k + 1)).map (fun j => (100 * 2 ^ j, 100 * 2 ^ j / w)))) := by
  have h100 : 100 ≤ max_size :=
    le_trans (Nat.le_mul_of_pos_right _ (Nat.pos_pow_of_pos _ (by norm_num))) hk
  have hacc : argumentsAccepted max_size ⟨2, 0⟩ repeat_ = true := by
    rw [argumentsAccepted_iff]
    exact ⟨h100, by norm_num, hrep⟩
  unfold main
  rw [toU64_natCast (lt_trans hk2 hov), toU64_natCast (by omega)]
  simp only [ne_eq, not_true_eq_false, if_false, hacc, Bool.not_true, Bool.false_eq_true]
  have hs := sweep_two w max_size k hw1 hw hk hk2 hov (k + 1) 0 fuel allocates [] (by omega)
    (by omega) (fun i hi => halloc i (by omega))
  simp only [pow_zero, Nat.mul_one, Nat.zero_add, List.nil_append] at hs
  rw [hs]

/-- The two runs named by C2: `max_size = 800` and `max_size = 100`, 8-byte
elements, every allocation succeeding. -/
theorem main_sweep_sizes_factor_two_witness :
    main 5 4 800 ⟨2, 0⟩ 1000 true (fun _ => true) 8 =
        .swept (.finished ((List.range 4).map (fun j => (100 * 2 ^ j, 100 * 2 ^ j / 8)))) ∧
      (List.range 4).map (fun j => 100 * 2 ^ j) = [100, 200, 400, 800] ∧
      main 2 4 100 ⟨2, 0⟩ 1000 true (fun _ => true) 8 =
        .swept (.finished ((List.range 1).map (fun j => (100 * 2 ^ j, 100 * 2 ^ j / 8)))) ∧
      (List.range 1).map (fun j => 100 * 2 ^ j) = [100] :=
  ⟨main_sweep_sizes_factor_two 800 3 5 1000 8 (fun _ => true) (by decide) (by decide)
      (by decide) (by decide) (by decide) (by decide) (by decide) (by decide) (fun _ _ => rfl),
    by decide,
    main_sweep_sizes_factor_two 100 0 2 1000 8 (fun _ => true) (by decide) (by decide)
      (by decide) (by decide) (by decide) (by decide) (by decide) (by decide) (fun _ _ => rfl),
    by decide⟩

/-- C3 (the code departs from it): for the valid configuration `max_size = 100,
factor = 1.0078125 = 129 / 128, repeat = 1` (every allocation succeeding) the
loop of `main` never ends:
after any number of evaluations of its condition it is still running, having
emitted a row of size 100 each time. -/
theorem main_sweep_never_ends :
    argumentsAccepted 100 ⟨129, 7⟩ 1 = true ∧ Float32.representable ⟨129, 7⟩ ∧
    ∀ fuel : Nat,
      main fuel 4 100 ⟨129, 7⟩ 1 true (fun _ => true) 8 =
        .swept (.unfinished (List.replicate fuel (100, 12))) := by
  refine ⟨by decide, by decide, fun fuel => ?_⟩
  have h := sweep_stuck fuel []
  have e1 : toU64 100 = 100 := by decide
  have e2 : toU64 1 = 1 := by decide
  have hacc : argumentsAccepted 100 ⟨129, 7⟩ 1 = true := by decide
  unfold main
  simp only [ne_eq, not_true_eq_false, if_false, e1, e2, hacc, Bool.not_true,
    Bool.false_eq_true, h, List.nil_append]

/-- C4 (the code departs from it): for the valid factor `129 / 128 > 1` and
`max_size = 100`, the transition from the initial state `curr_size = 100`
yields `100` again: the size does not increase. -/
theorem sweep_transition_not_increasing :
    argumentsAccepted 100 ⟨129, 7⟩ 1 = true ∧
    SweepReaches 100 ⟨129, 7⟩ 100 ∧ 100 ≤ 100 ∧
    scaleSize ⟨129, 7⟩ 100 = some 100 ∧
    roundToFloat 100 = 100 ∧ roundToFloat (100 * 129) = 12900 ∧ 12900 / 2 ^ 7 = 100 :=
  ⟨by decide, SweepReaches.start, le_rfl, by decide, by decide, by decide, by decide⟩

/-- C5 (the code departs from it): for a clock reading with `tv_nsec` in
`[0, 999999999]` the value `zero` of `main` is `tv_nsec` itself, e.g. `1` for
`tv_nsec = 1` and `500000000` for `tv_nsec = 500000000`; it is not 0. -/
theorem mainZero_is_tv_nsec :
    mainZero ⟨0, 1⟩ = 1 ∧ mainZero ⟨1700000000, 500000000⟩ = 500000000 ∧
    mainZero ⟨1700000000, 999999999⟩ = 999999999 ∧ mainZero ⟨0, 0⟩ = 0 := by
  decide

/-- C6: for `zero = 0` and arrays of `arr_size >= 1` elements, the measurer
returns, its field `rnd` is the `max repeat arr_size`-fold iterate of the
reference Galois step from the seed 12345, the baseline loop ends in that same
state, and a run on an array with other contents returns the same `rnd`. -/
theorem measure_sequential_rnd_independent_of_array (repeat_ arr_size : Nat)
    (arr arr2 : List Nat) (t0 t1 t2 t3 u0 u1 u2 u3 : Timespec) (hsz : 1 ≤ arr_size)
    (hlen : arr.length = arr_size) (hlen2 : arr2.length = arr_size) :
    ∃ r r2,
      measure_sequential_latency repeat_ arr arr_size 0 t0 t1 t2 t3 = some r ∧
      measure_sequential_latency repeat_ arr2 arr_size 0 u0 u1 u2 u3 = some r2 ∧
      r.result.rnd = referenceGaloisStep^[max repeat_ arr_size] 12345 ∧
      r.baselineEnd.rnd = referenceGaloisStep^[max repeat_ arr_size] 12345 ∧
      r2.result.rnd = r.result.rnd := by
  obtain ⟨r, hr, -, -, -, -, -, -, hrnd, hz⟩ :=
    measure_sequential_latency_spec repeat_ arr arr_size 0 t0 t1 t2 t3 hlen hsz
  obtain ⟨r2, hr2, -, -, -, -, -, -, hrnd2, hz2⟩ :=
    measure_sequential_latency_spec repeat_ arr2 arr_size 0 u0 u1 u2 u3 hlen2 hsz
  obtain ⟨hb, ha⟩ := hz rfl
  obtain ⟨-, ha2⟩ := hz2 rfl
  refine ⟨r, r2, hr, hr2, ?_, ?_, ?_⟩
  · rw [hrnd, ha, iterate_galois_eq_reference]
  · rw [hb, iterate_galois_eq_reference]
  · rw [hrnd, hrnd2, ha, ha2]

/-- Two arrays of three elements, `repeat = 2`. -/
theorem measure_sequential_rnd_independent_of_array_witness :
    ∃ r r2,
      measure_sequential_latency 2 [0, 1, 2] 3 0 ⟨0, 5⟩ ⟨0, 9⟩ ⟨0, 9⟩ ⟨0, 20⟩ = some r ∧
      measure_sequential_latency 2 [7, 7, 9] 3 0 ⟨1, 0⟩ ⟨1, 4⟩ ⟨1, 5⟩ ⟨1, 8⟩ = some r2 ∧
      r.result.rnd = referenceGaloisStep^[max 2 3] 12345 ∧
      r.baselineEnd.rnd = referenceGaloisStep^[max 2 3] 12345 ∧
      r2.result.rnd = r.result.rnd :=
  measure_sequential_rnd_independent_of_array 2 3 [0, 1, 2] [7, 7, 9] ⟨0, 5⟩ ⟨0, 9⟩ ⟨0, 9⟩
    ⟨0, 20⟩ ⟨1, 0⟩ ⟨1, 4⟩ ⟨1, 5⟩ ⟨1, 8⟩ (by decide) (by decide) (by decide)

/-- C7: on an array of `arr_size >= 1` elements the measurer returns, its
baseline loop and its access loop each execute exactly `max repeat arr_size`
iterations, which is `repeat` when `repeat >= arr_size`, and that count is the
divisor of both averages. -/
theorem measure_sequential_iteration_count (repeat_ : Nat) (arr : List Nat)
    (arr_size zero : Nat) (t0 t1 t2 t3 : Timespec) (hsz : 1 ≤ arr_size)
    (hlen : arr.length = arr_size) :
    ∃ r, measure_sequential_latency repeat_ arr arr_size zero t0 t1 t2 t3 = some r ∧
      r.baselineEnd.iters = max repeat_ arr_size ∧
      r.accessEnd.iters = max repeat_ arr_size ∧
      (arr_size ≤ repeat_ → r.baselineEnd.iters = repeat_ ∧ r.accessEnd.iters = repeat_) ∧
      r.result.baseline.den = max repeat_ arr_size ∧
      r.result.access_time.den = max repeat_ arr_size := by
  obtain ⟨r, hr, hbi, hai, hbd, had, -⟩ :=
    measure_sequential_latency_spec repeat_ arr arr_size zero t0 t1 t2 t3 hlen hsz
  refine ⟨r, hr, hbi, hai, fun hle => ?_, hbd, had⟩
  rw [hbi, hai, Nat.max_eq_left hle]
  exact ⟨rfl, rfl⟩

/-- An array of two elements, `repeat = 5`. -/
theorem measure_sequential_iteration_count_witness :
    ∃ r, measure_sequential_latency 5 [4, 8] 2 1 ⟨0, 5⟩ ⟨0, 9⟩ ⟨0, 9⟩ ⟨0, 20⟩ = some r ∧
      r.baselineEnd.iters = max 5 2 ∧
      r.accessEnd.iters = max 5 2 ∧
      (2 ≤ 5 → r.baselineEnd.iters = 5 ∧ r.accessEnd.iters = 5) ∧
      r.result.baseline.den = max 5 2 ∧
      r.result.access_time.den = max 5 2 :=
  measure_sequential_iteration_count 5 [4, 8] 2 1 ⟨0, 5⟩ ⟨0, 9⟩ ⟨0, 9⟩ ⟨0, 20⟩ (by decide)
    (by decide)

/-- C9: on an array of `arr_size >= 1` elements the measurer returns (no read
outside the array, no modulo by zero), and the indices at which its access
loop reads `arr` are exactly the numbers below `arr_size`. -/
theorem measure_sequential_indices_read (repeat_ : Nat) (arr : List Nat)
    (arr_size zero : Nat) (t0 t1 t2 t3 : Timespec) (hsz : 1 ≤ arr_size)
    (hlen : arr.length = arr_size) :
    ∃ r, measure_sequential_latency repeat_ arr arr_size zero t0 t1 t2 t3 = some r ∧
      ∀ j, j ∈ r.accessEnd.reads ↔ j < arr_size := by
  obtain ⟨r, hr, -, -, -, -, -, hreads, -⟩ :=
    measure_sequential_latency_spec repeat_ arr arr_size zero t0 t1 t2 t3 hlen hsz
  refine ⟨r, hr, fun j => ?_⟩
  rw [hreads, List.mem_map]
  constructor
  · rintro ⟨i, -, rfl⟩
    exact Nat.mod_lt _ (by omega)
  · intro hj
    refine ⟨j, ?_, Nat.mod_eq_of_lt hj⟩
    rw [List.mem_range]
    exact lt_of_lt_of_le hj (le_max_right _ _)

/-- An array of three elements, `repeat = 1`. -/
theorem measure_sequential_indices_read_witness :
    ∃ r, measure_sequential_latency 1 [10, 20, 30] 3 0 ⟨0, 5⟩ ⟨0, 9⟩ ⟨0, 9⟩ ⟨0, 20⟩ = some r ∧
      ∀ j, j ∈ r.accessEnd.reads ↔ j < 3 :=
  measure_sequential_indices_read 1 [10, 20, 30] 3 0 ⟨0, 5⟩ ⟨0, 9⟩ ⟨0, 9⟩ ⟨0, 20⟩ (by decide)
    (by decide)

/-- C10: the Galois step of both loops is injective on 64-bit words, maps 0 to 0
and therefore no non-zero word to 0; with `zero = 0`, started from the seed
12345, the state `rnd` of the baseline loop and of the access loop is non-zero
after any number `n` of iterations. -/
theorem galois_step_injective_and_nonzero :
    GALOIS_POLYNOMIAL = 2 ^ 63 + 2 ^ 62 + 2 ^ 60 + 2 ^ 59 ∧
    (∀ x y, x < 2 ^ 64 → y < 2 ^ 64 → galoisAdvance x = galoisAdvance y → x = y) ∧
    galoisAdvance 0 = 0 ∧
    (∀ x, x < 2 ^ 64 → x ≠ 0 → galoisAdvance x ≠ 0 ∧ galoisAdvance x < 2 ^ 64) ∧
    (∀ (arr : List Nat) (arr_size n : Nat), 1 ≤ arr_size → arr.length = arr_size →
      (∃ s, forLoop (baselineBody arr_size 0) n ⟨12345, 0, []⟩ = some s ∧ s.rnd ≠ 0) ∧
      (∃ s, forLoop (accessBody arr arr_size 0) n ⟨(12345 &&& 0) ^^^ 12345, 0, []⟩ = some s ∧
        s.rnd ≠ 0)) := by
  refine ⟨galoisPolynomial_eq, fun x y hx hy h => galoisAdvance_injective hx hy h,
    galoisAdvance_zero, fun x hx h0 => ⟨galoisAdvance_ne_zero hx h0, galoisAdvance_lt hx⟩, ?_⟩
  intro arr arr_size n hsz hlen
  have hne : arr_size ≠ 0 := by omega
  have hinv := (galoisAdvance_iterate_inv n (by decide : 12345 < 2 ^ 64) (by decide)).2
  obtain ⟨b, hb, -, -, hbz⟩ := baselineLoop_spec arr_size 0 hne n ⟨12345, 0, []⟩
  obtain ⟨a, ha, -, -, haz⟩ :=
    accessLoop_spec arr arr_size 0 hlen hne n ⟨(12345 &&& 0) ^^^ 12345, 0, []⟩
  refine ⟨⟨b, hb, ?_⟩, ⟨a, ha, ?_⟩⟩
  · rw [hbz rfl]; exact hinv
  · rw [haz rfl]; exact hinv

/-- The seed 12345 and three iterations over an array of two elements. -/
theorem galois_step_injective_and_nonzero_witness :
    (galoisAdvance 12345 = galoisAdvance 12345 → 12345 = 12345) ∧
      (galoisAdvance 12345 ≠ 0 ∧ galoisAdvance 12345 < 2 ^ 64) ∧
      (∃ s, forLoop (baselineBody 2 0) 3 ⟨12345, 0, []⟩ = some s ∧ s.rnd ≠ 0) ∧
      (∃ s, forLoop (accessBody [5, 6] 2 0) 3 ⟨(12345 &&& 0) ^^^ 12345, 0, []⟩ = some s ∧
        s.rnd ≠ 0) :=
  ⟨galois_step_injective_and_nonzero.2.1 12345 12345 (by decide) (by decide),
    galois_step_injective_and_nonzero.2.2.2.1 12345 (by decide) (by decide),
    (galois_step_injective_and_nonzero.2.2.2.2 [5, 6] 2 3 (by decide) (by decide)).1,
    (galois_step_injective_and_nonzero.2.2.2.2 [5, 6] 2 3 (by decide) (by decide)).2⟩

end MemoryLatency
